import Mathlib

/-!
Verification of the ping-pong loop filter (src/src/plugin-main.cpp).

The development shallowly embeds the algorithmic core of the filter:

* the bounded FIFO frame buffer manipulated in loop_filter_render
  (push_back plus a single pop_front on overflow, lines 736-744) and the
  trim-on-shrink loop in loop_filter_update (lines 244-250), with the
  deque of frame textures modelled as a Lean list, oldest frame first;
* the playback-cursor advance performed by loop_filter_tick
  (lines 540-607): the fractional frame accumulator, its overflow guard,
  and the per-step ping-pong / wraparound boundary rules;
* the buffer sizing performed by recalc_buffer and estimate_memory_usage
  (lines 124-174), with C doubles modelled as rationals and the 32-bit
  unsigned wraparound of the bytes-per-frame expression made explicit;
* the toggle callback shared by the properties button (lines 366-401)
  and the hotkey handler loop_filter_toggle_cb (lines 853-891), which
  only consults the frame count, the loop flag and the cursor fields.
-/

namespace PingPongLoop

unseal Rat.add Rat.mul Rat.sub Rat.inv

/-- Clamp utility, from clampv in plugin-main.cpp (lines 29-32). -/
def clampv (v lo hi : Int) : Int :=
  if v < lo then lo else if v > hi then hi else v

/-! ## FrameStore: the deque of captured frames, oldest first -/

/-- One push into the frame deque, from loop_filter_render lines 736-744:
push_back the new frame, then if the size exceeds max_frames pop exactly
one frame from the front (the oldest). -/
def push (cap : Nat) (s : List Nat) (f : Nat) : List Nat :=
  let s2 := s ++ [f]
  if s2.length > cap then s2.tail else s2

/-- Folding push over a list of frames, in order of capture. -/
def pushAll (cap : Nat) (s : List Nat) (xs : List Nat) : List Nat :=
  xs.foldl (push cap) s

/-- The trim loop of loop_filter_update lines 244-250: while the deque is
larger than max_frames, pop the front (oldest) frame. -/
def trim (cap : Nat) : List Nat → List Nat
  | [] => []
  | x :: xs => if xs.length + 1 > cap then trim cap xs else x :: xs

/-- clear_frames_locked (lines 102-122) empties the deque. -/
def clearStore (_s : List Nat) : List Nat := []

/-! ## Playback cursor -/

/-- The cursor fields of loop_filter mutated by the advance loop:
play_index, direction (+1 forward, -1 backward) and total_loops. -/
structure Cursor where
  play_index : Nat
  direction : Int
  total_loops : Int
deriving Repr, DecidableEq

/-- The loop-counter increment with its overflow guard, from
loop_filter_tick: total_loops++ then reset to 0 when it exceeds 1000000. -/
def bump_loops (t : Int) : Int :=
  if t + 1 > 1000000 then 0 else t + 1

/-- One iteration of the advance loop in loop_filter_tick (lines 560-607),
for a store of n frames. Forward at the top: in ping-pong mode flip to
backward and decrement if possible, otherwise wrap to 0. Backward at the
bottom: in ping-pong mode flip to forward and increment if the store has
more than one frame, otherwise wrap to n-1. Interior moves step by one. -/
def advance_step (n : Nat) (pp : Bool) (c : Cursor) : Cursor :=
  if c.direction > 0 then
    if c.play_index + 1 ≥ n then
      if pp then
        { play_index := if c.play_index > 0 then c.play_index - 1 else c.play_index,
          direction := -1,
          total_loops := bump_loops c.total_loops }
      else
        { play_index := 0,
          direction := c.direction,
          total_loops := bump_loops c.total_loops }
    else
      { c with play_index := c.play_index + 1 }
  else
    if c.play_index = 0 then
      if pp then
        { play_index := if n > 1 then c.play_index + 1 else c.play_index,
          direction := 1,
          total_loops := bump_loops c.total_loops }
      else
        { play_index := n - 1,
          direction := c.direction,
          total_loops := bump_loops c.total_loops }
    else
      { c with play_index := c.play_index - 1 }

/-- Cursor state together with the fractional frame accumulator. -/
structure TickState where
  cursor : Cursor
  frame_accum : ℚ
deriving Repr, DecidableEq

/-- The playback portion of loop_filter_tick (lines 540-607), with the C
doubles modelled as rationals.  The playback rate is
(store size / buffer_seconds) * playback_speed; the elapsed seconds are
converted into whole-frame steps through the accumulator, which is reset
to 0 when it exceeds 1000000; the whole part is extracted (the size_t
cast truncates, which equals the floor for the nonnegative values that
arise) and the advance loop runs that many iterations unless fewer than
two frames are stored. -/
def tick_playback (n : Nat) (buffer_seconds speed seconds : ℚ) (pp : Bool)
    (s : TickState) : TickState :=
  let fps_playback := ((n : ℚ) / buffer_seconds) * speed
  let accum1 := s.frame_accum + seconds * fps_playback
  let accum2 := if accum1 > 1000000 then 0 else accum1
  let steps := (Int.floor accum2).toNat
  let accum3 := accum2 - (steps : ℚ)
  if steps = 0 then { s with frame_accum := accum3 }
  else if n < 2 then { s with frame_accum := accum3 }
  else { cursor := (advance_step n pp)^[steps] s.cursor, frame_accum := accum3 }

/-! ## Buffer sizing -/

/-- llround for rationals: round half away from zero, as std::llround. -/
def llround_q (x : ℚ) : Int :=
  if 0 ≤ x then Int.floor (x + 1/2) else -(Int.floor (-x + 1/2))

/-- The bytes-per-frame estimate width*height*4 + 256 of
estimate_memory_usage (line 128) and recalc_buffer (line 158).  The C
expression is evaluated in 32-bit unsigned arithmetic, hence the explicit
wraparound modulo 2^32. -/
def bytes_per_frame (w h : Nat) : Nat :=
  (w * h * 4 + 256) % 4294967296

/-- estimate_memory_usage (lines 124-130): per-frame bytes times the frame
count, integer-divided down to whole megabytes. -/
def estimate_memory_usage (w h frame_count : Nat) : Nat :=
  (bytes_per_frame w h * frame_count) / (1024 * 1024)

/-- The duration-based frame budget of recalc_buffer (lines 148-151):
llround((fps / capture_skip_frames) * clamp(buffer_seconds, 10, 60)),
floored to a minimum of 2. -/
def base_max_frames (fps : ℚ) (stride : Nat) (buffer_seconds : Int) : Nat :=
  let m0 := (llround_q ((fps / (stride : ℚ)) * ((clampv buffer_seconds 10 60 : Int) : ℚ))).toNat
  if m0 < 2 then 2 else m0

/-- The max_frames computation of recalc_buffer (lines 144-167): the
duration-based budget, then, when the dimensions are known and the
megabyte estimate exceeds the memory ceiling, the recomputed budget
(ceiling bytes / bytes per frame) floored to a minimum of 2. -/
def recalc_max_frames (fps : ℚ) (stride : Nat) (buffer_seconds : Int)
    (w h max_memory_mb : Nat) : Nat :=
  let m1 := base_max_frames fps stride buffer_seconds
  if 0 < w ∧ 0 < h then
    if estimate_memory_usage w h m1 > max_memory_mb then
      let m2 := (max_memory_mb * 1024 * 1024) / bytes_per_frame w h
      if m2 < 2 then 2 else m2
    else m1
  else m1

/-! ## Toggle (properties button, lines 366-401; hotkey callback, lines 853-891) -/

/-- The filter state consulted and mutated by the toggle callbacks.  Both
callbacks read only the size of the frame deque, so the store appears
here as its frame count. -/
structure LFState where
  loop_enabled : Bool
  frames_len : Nat
  play_index : Nat
  direction : Int
  frame_accum : ℚ
  total_loops : Int
deriving Repr, DecidableEq

/-- The toggle operation shared by the properties button callback
(lines 366-401) and loop_filter_toggle_cb (lines 853-891): negate
loop_enabled; if now enabled and frames exist, reset the cursor to the
last frame moving backward with zeroed accumulator and loop counter; if
now enabled but the store is empty, set loop_enabled back to false.  The
pair's second component is the value the button callback returns, which
is true on every path that reaches the toggle (line 400). -/
def toggle_loop (s : LFState) : LFState × Bool :=
  let s1 := { s with loop_enabled := !s.loop_enabled }
  if s1.loop_enabled then
    if s1.frames_len > 0 then
      ({ s1 with play_index := s1.frames_len - 1,
                 direction := -1,
                 frame_accum := 0,
                 total_loops := 0 }, true)
    else
      ({ s1 with loop_enabled := false }, true)
  else
    (s1, true)

/-! ## FrameStore lemmas -/

theorem pushAll_cons (cap : Nat) (s : List Nat) (x : Nat) (xs : List Nat) :
    pushAll cap s (x :: xs) = pushAll cap (push cap s x) xs := rfl

theorem push_of_full (cap : Nat) (s : List Nat) (x : Nat) (hb : cap < s.length + 1) :
    push cap s x = (s ++ [x]).tail := by
  unfold push
  rw [if_pos (by simp; omega)]

theorem push_of_room (cap : Nat) (s : List Nat) (x : Nat) (hb : s.length + 1 ≤ cap) :
    push cap s x = s ++ [x] := by
  unfold push
  rw [if_neg (by simp; omega)]

/-- Folding push over a run of captures from any store within capacity drops
exactly the overflow from the front. -/
theorem pushAll_eq_drop (cap : Nat) (xs : List Nat) :
    ∀ s : List Nat, s.length ≤ cap →
      pushAll cap s xs = (s ++ xs).drop (s.length + xs.length - cap) := by
  induction xs with
  | nil =>
    intro s hs
    have h0 : s.length - cap = 0 := by omega
    simp [pushAll, h0]
  | cons x xs ih =>
    intro s hs
    rw [pushAll_cons]
    by_cases hb : cap < s.length + 1
    · have hslen : s.length = cap := by omega
      rcases s with _ | ⟨y, ys⟩
      · have hcap : cap = 0 := by simpa using hslen.symm
        subst hcap
        rw [push_of_full 0 [] x (by simp)]
        simp only [List.nil_append, List.tail_cons]
        rw [ih [] (by simp)]
        simp [List.drop_eq_nil_of_le]
      · have hpush : push cap (y :: ys) x = ys ++ [x] := by
          rw [push_of_full cap (y :: ys) x (by simp at hslen ⊢; omega)]
          simp
        rw [hpush, ih (ys ++ [x]) (by simp at hslen ⊢; omega)]
        have hidx1 : (ys ++ [x]).length + xs.length - cap = xs.length := by
          simp at hslen ⊢; omega
        have hidx2 : (y :: ys).length + (x :: xs).length - cap = xs.length + 1 := by
          simp at hslen ⊢; omega
        rw [hidx1, hidx2]
        simp [List.append_assoc]
    · rw [push_of_room cap s x (by omega), ih (s ++ [x]) (by simp; omega)]
      have hidx : (s ++ [x]).length + xs.length - cap
          = s.length + (x :: xs).length - cap := by simp; omega
      rw [hidx]
      simp [List.append_assoc]

theorem pushAll_nil_eq_drop (cap : Nat) (xs : List Nat) :
    pushAll cap [] xs = xs.drop (xs.length - cap) := by
  have h := pushAll_eq_drop cap xs [] (by simp)
  simpa using h

theorem pushAll_nil_length (cap : Nat) (xs : List Nat) :
    (pushAll cap [] xs).length = min xs.length cap := by
  rw [pushAll_nil_eq_drop, List.length_drop]
  omega

theorem trim_length_le (cap : Nat) (s : List Nat) : (trim cap s).length ≤ cap := by
  induction s with
  | nil => simp [trim]
  | cons x xs ih =>
    unfold trim
    split
    · exact ih
    · rename_i hcond
      simp at hcond ⊢
      omega

/-- C2: for every sequence of pushes into a store of capacity c at least 2,
the size stays at most c after every individual push and equals
min(total pushed, c) after all of them; trimming to a capacity and clearing
also leave the size within the capacity. -/
theorem C2_capacity_invariant (c : Nat) (_hc : 2 ≤ c) (xs : List Nat) :
    (∀ k, (pushAll c [] (xs.take k)).length ≤ c) ∧
    (pushAll c [] xs).length = min xs.length c ∧
    (∀ (s : List Nat) (c2 : Nat), (trim c2 s).length ≤ c2) ∧
    (∀ s : List Nat, (clearStore s).length ≤ c) := by
  refine ⟨?_, pushAll_nil_length c xs, fun s c2 => trim_length_le c2 s, ?_⟩
  · intro k
    rw [pushAll_nil_length]
    omega
  · intro s
    simp [clearStore]

/-- C2 witness: capacity 3, five pushes. -/
theorem C2_capacity_invariant_witness :
    (pushAll 3 [] ([1, 2, 3, 4, 5].take 4)).length ≤ 3 ∧
    (pushAll 3 [] [1, 2, 3, 4, 5]).length = min 5 3 := by
  have h := C2_capacity_invariant 3 (by decide) [1, 2, 3, 4, 5]
  exact ⟨h.1 4, h.2.1⟩

/-- C3: pushing capacity + k frames into an empty store evicts exactly the k
oldest frames, leaving the last capacity frames in insertion order. -/
theorem C3_fifo_eviction (c k : Nat) (xs : List Nat) (hlen : xs.length = c + k) :
    pushAll c [] xs = xs.drop k ∧ (pushAll c [] xs).length = c := by
  have h := pushAll_nil_eq_drop c xs
  constructor
  · rw [h]
    congr 1
    omega
  · rw [h, List.length_drop]
    omega

/-- C3 witness: capacity 100, frames 1..150 pushed one at a time leave
exactly frames 51..150 in order. -/
theorem C3_fifo_eviction_witness :
    pushAll 100 [] (List.range' 1 150) = List.range' 51 100 ∧
    (pushAll 100 [] (List.range' 1 150)).length = 100 := by
  have h := C3_fifo_eviction 100 50 (List.range' 1 150) (by simp)
  refine ⟨?_, h.2⟩
  rw [h.1]
  decide

/-! ## Cursor advance lemmas -/

/-- A backward step strictly inside the buffer decrements the index. -/
theorem advance_step_backward_interior (n : Nat) (pp : Bool) (i : Nat) (t : Int)
    (hi : i ≠ 0) : advance_step n pp ⟨i, -1, t⟩ = ⟨i - 1, -1, t⟩ := by
  unfold advance_step
  dsimp only
  rw [if_neg (by decide : ¬((-1 : Int) > 0)), if_neg hi]

/-- A forward step strictly inside the buffer increments the index. -/
theorem advance_step_forward_interior (n : Nat) (pp : Bool) (i : Nat) (t : Int)
    (hi : i + 1 < n) : advance_step n pp ⟨i, 1, t⟩ = ⟨i + 1, 1, t⟩ := by
  unfold advance_step
  dsimp only
  rw [if_pos (by decide : (1 : Int) > 0), if_neg (by omega : ¬ i + 1 ≥ n)]

/-- In ping-pong mode a backward step at index 0 flips to forward and moves
to index 1 (stores of at least two frames). -/
theorem advance_step_flip_bottom (n : Nat) (t : Int) (hn : 1 < n) :
    advance_step n true ⟨0, -1, t⟩ = ⟨1, 1, bump_loops t⟩ := by
  unfold advance_step
  dsimp only
  rw [if_neg (by decide : ¬((-1 : Int) > 0)), if_pos rfl, if_pos rfl, if_pos hn]

/-- Running k backward interior steps subtracts k from the index. -/
theorem iterate_backward_run (n : Nat) (pp : Bool) (t : Int) (k : Nat) :
    ∀ i : Nat, k ≤ i → (advance_step n pp)^[k] ⟨i, -1, t⟩ = ⟨i - k, -1, t⟩ := by
  induction k with
  | zero => intro i _; simp
  | succ k ih =>
    intro i hk
    rw [Function.iterate_succ_apply, advance_step_backward_interior n pp i t (by omega),
        ih (i - 1) (by omega)]
    congr 1
    omega

/-- Running k forward interior steps adds k to the index. -/
theorem iterate_forward_run (n : Nat) (pp : Bool) (t : Int) (k : Nat) :
    ∀ i : Nat, i + k < n → (advance_step n pp)^[k] ⟨i, 1, t⟩ = ⟨i + k, 1, t⟩ := by
  induction k with
  | zero => intro i _; simp
  | succ k ih =>
    intro i hk
    rw [Function.iterate_succ_apply, advance_step_forward_interior n pp i t (by omega),
        ih (i + 1) (by omega)]
    congr 1
    omega

/-- C1 (amended): in ping-pong mode with n at least 2 frames, from the reset
state (index n-1, direction Backward, loop counter 0) the first n-1 advances
reach index 0 with the direction still Backward (the flip to Forward happens
only on the n-th advance, the one applied at index 0); after 2*(n-1)
advances the index is back at n-1 but the direction is Forward and the loop
counter is 1, so the exact reset state is not revisited; for n = 4 the
indices after each of the first 10 advances are 2,1,0,1,2,3,2,1,0,1 (the
sequence 3,2,1,0,1,2,3,2,1,0 of the claim lists the starting index followed
by only the first 9 advances). -/
theorem C1_pingpong_boundary (n : Nat) (hn : 2 ≤ n) :
    (advance_step n true)^[n - 1] ⟨n - 1, -1, 0⟩ = ⟨0, -1, 0⟩ ∧
    (advance_step n true)^[2 * (n - 1)] ⟨n - 1, -1, 0⟩ = ⟨n - 1, 1, 1⟩ ∧
    (List.range 10).map (fun k => ((advance_step 4 true)^[k + 1] ⟨3, -1, 0⟩).play_index)
      = [2, 1, 0, 1, 2, 3, 2, 1, 0, 1] := by
  refine ⟨?_, ?_, by decide⟩
  · rw [iterate_backward_run n true 0 (n - 1) (n - 1) le_rfl]
    congr 1
    omega
  · have hsplit : 2 * (n - 1) = (n - 2) + (1 + (n - 1)) := by omega
    rw [hsplit, Function.iterate_add_apply, Function.iterate_add_apply,
        iterate_backward_run n true 0 (n - 1) (n - 1) le_rfl]
    simp only [Nat.sub_self, Function.iterate_one]
    rw [advance_step_flip_bottom n 0 (by omega)]
    have hbump : bump_loops 0 = 1 := by decide
    rw [hbump, iterate_forward_run n true 1 (n - 2) 1 (by omega)]
    congr 1
    omega

/-- C1 fails as stated: for n = 4, after n-1 = 3 advances from the reset
state the direction is still Backward (not flipped to Forward); after
2*(n-1) = 6 advances the cursor is not back in the starting state (the
direction is Forward); and the first advance visits index 2, not 3. -/
theorem C1_counterexample :
    ((advance_step 4 true)^[3] ⟨3, -1, 0⟩).direction = -1 ∧
    (advance_step 4 true)^[6] ⟨3, -1, 0⟩ ≠ ⟨3, -1, 0⟩ ∧
    ((advance_step 4 true)^[1] ⟨3, -1, 0⟩).play_index ≠ 3 := by decide

/-- C1 witness at n = 5. -/
theorem C1_pingpong_boundary_witness :
    (advance_step 5 true)^[4] ⟨4, -1, 0⟩ = ⟨0, -1, 0⟩ ∧
    (advance_step 5 true)^[8] ⟨4, -1, 0⟩ = ⟨4, 1, 1⟩ := by
  have h := C1_pingpong_boundary 5 (by decide)
  exact ⟨h.1, h.2.1⟩

/-- Without ping-pong, a forward step moves the index to (i+1) mod n. -/
theorem advance_step_no_pp_forward (n i : Nat) (t : Int) (_hn : 0 < n) (hi : i < n) :
    ∃ t2 : Int, advance_step n false ⟨i, 1, t⟩ = ⟨(i + 1) % n, 1, t2⟩ := by
  by_cases hb : i + 1 ≥ n
  · have hwrap : (i + 1) % n = 0 := by
      have h1 : i + 1 = n := by omega
      simp [h1]
    refine ⟨bump_loops t, ?_⟩
    unfold advance_step
    dsimp only
    rw [if_pos (by decide : (1 : Int) > 0), if_pos hb,
        if_neg (by decide : ¬ (false = true)), hwrap]
  · refine ⟨t, ?_⟩
    rw [advance_step_forward_interior n false i t (by omega),
        Nat.mod_eq_of_lt (by omega : i + 1 < n)]

/-- Without ping-pong, a backward step moves the index to (i + (n-1)) mod n. -/
theorem advance_step_no_pp_backward (n i : Nat) (t : Int) (hn : 0 < n) (hi : i < n) :
    ∃ t2 : Int, advance_step n false ⟨i, -1, t⟩ = ⟨(i + (n - 1)) % n, -1, t2⟩ := by
  by_cases hb : i = 0
  · subst hb
    have hwrap : (0 + (n - 1)) % n = n - 1 := by
      rw [Nat.zero_add, Nat.mod_eq_of_lt (by omega)]
    refine ⟨bump_loops t, ?_⟩
    unfold advance_step
    dsimp only
    rw [if_neg (by decide : ¬((-1 : Int) > 0)), if_pos rfl,
        if_neg (by decide : ¬ (false = true)), hwrap]
  · refine ⟨t, ?_⟩
    rw [advance_step_backward_interior n false i t hb]
    have h1 : i + (n - 1) = (i - 1) + 1 * n := by omega
    rw [h1, Nat.add_mul_mod_self_right, Nat.mod_eq_of_lt (by omega)]

/-- Iterating the non-ping-pong forward step k times adds k modulo n. -/
theorem iterate_no_pp_forward (n : Nat) (hn : 0 < n) (k : Nat) :
    ∀ (i : Nat) (t : Int), i < n →
      ∃ t2 : Int, (advance_step n false)^[k] ⟨i, 1, t⟩ = ⟨(i + k) % n, 1, t2⟩ := by
  induction k with
  | zero =>
    intro i t hi
    exact ⟨t, by simp [Nat.mod_eq_of_lt hi]⟩
  | succ k ih =>
    intro i t hi
    obtain ⟨t1, h1⟩ := advance_step_no_pp_forward n i t hn hi
    obtain ⟨t2, h2⟩ := ih ((i + 1) % n) t1 (Nat.mod_lt _ hn)
    refine ⟨t2, ?_⟩
    rw [Function.iterate_succ_apply, h1, h2, Nat.mod_add_mod,
        show i + 1 + k = i + (k + 1) from by omega]

/-- Iterating the non-ping-pong backward step k times adds k*(n-1) modulo n. -/
theorem iterate_no_pp_backward (n : Nat) (hn : 0 < n) (k : Nat) :
    ∀ (i : Nat) (t : Int), i < n →
      ∃ t2 : Int, (advance_step n false)^[k] ⟨i, -1, t⟩ = ⟨(i + k * (n - 1)) % n, -1, t2⟩ := by
  induction k with
  | zero =>
    intro i t hi
    exact ⟨t, by simp [Nat.mod_eq_of_lt hi]⟩
  | succ k ih =>
    intro i t hi
    obtain ⟨t1, h1⟩ := advance_step_no_pp_backward n i t hn hi
    obtain ⟨t2, h2⟩ := ih ((i + (n - 1)) % n) t1 (Nat.mod_lt _ hn)
    refine ⟨t2, ?_⟩
    rw [Function.iterate_succ_apply, h1, h2, Nat.mod_add_mod,
        show i + (n - 1) + k * (n - 1) = i + (k + 1) * (n - 1) from by ring]

/-- C7: with ping-pong disabled and a store of n at least 2 frames, n single
steps from any index in range return the cursor to that index, in either
direction (pure wraparound of period n), leaving the direction unchanged. -/
theorem C7_wraparound (n i : Nat) (d t : Int) (hn : 2 ≤ n) (hi : i < n)
    (hd : d = 1 ∨ d = -1) :
    ((advance_step n false)^[n] ⟨i, d, t⟩).play_index = i ∧
    ((advance_step n false)^[n] ⟨i, d, t⟩).direction = d := by
  rcases hd with rfl | rfl
  · obtain ⟨t2, h⟩ := iterate_no_pp_forward n (by omega) n i t hi
    rw [h]
    exact ⟨by simp [Nat.add_mod_right, Nat.mod_eq_of_lt hi], rfl⟩
  · obtain ⟨t2, h⟩ := iterate_no_pp_backward n (by omega) n i t hi
    rw [h]
    refine ⟨?_, rfl⟩
    have hm : i + n * (n - 1) = i + (n - 1) * n := by ring
    simp only [hm, Nat.add_mul_mod_self_right, Nat.mod_eq_of_lt hi]

/-- C7 witness: n = 3, starting index 1, both directions. -/
theorem C7_wraparound_witness :
    ((advance_step 3 false)^[3] ⟨1, 1, 0⟩).play_index = 1 ∧
    ((advance_step 3 false)^[3] ⟨1, -1, 0⟩).play_index = 1 := by
  have h1 := C7_wraparound 3 1 1 0 (by decide) (by decide) (Or.inl rfl)
  have h2 := C7_wraparound 3 1 (-1) 0 (by decide) (by decide) (Or.inr rfl)
  exact ⟨h1.1, h2.1⟩

/-! ## Cursor bound and overflow-guard lemmas -/

/-- One advance step keeps the index strictly below the store size. -/
theorem advance_step_index_lt (n : Nat) (pp : Bool) (c : Cursor) (hn : 0 < n)
    (hc : c.play_index < n) : (advance_step n pp c).play_index < n := by
  unfold advance_step
  repeat' split
  all_goals dsimp only
  all_goals omega

/-- Iterated advance steps keep the index strictly below the store size. -/
theorem iterate_index_lt (n : Nat) (pp : Bool) (k : Nat) (c : Cursor) (hn : 0 < n)
    (hc : c.play_index < n) : ((advance_step n pp)^[k] c).play_index < n := by
  induction k generalizing c with
  | zero => simpa
  | succ k ih =>
    rw [Function.iterate_succ_apply]
    exact ih _ (advance_step_index_lt n pp c hn hc)

/-- One advance step keeps the loop counter at most 1000000. -/
theorem advance_step_loops_le (n : Nat) (pp : Bool) (c : Cursor)
    (h : c.total_loops ≤ 1000000) : (advance_step n pp c).total_loops ≤ 1000000 := by
  unfold advance_step bump_loops
  repeat' split
  all_goals dsimp only
  all_goals omega

/-- Iterated advance steps keep the loop counter at most 1000000. -/
theorem iterate_loops_le (n : Nat) (pp : Bool) (k : Nat) (c : Cursor)
    (h : c.total_loops ≤ 1000000) :
    ((advance_step n pp)^[k] c).total_loops ≤ 1000000 := by
  induction k generalizing c with
  | zero => simpa
  | succ k ih =>
    rw [Function.iterate_succ_apply]
    exact ih _ (advance_step_loops_le n pp c h)

/-- Casting the truncated floor of a nonnegative rational back to the
rationals gives the floor itself. -/
theorem cast_toNat_floor (x : ℚ) (hx : 0 ≤ x) :
    (((Int.floor x).toNat : Nat) : ℚ) = ((Int.floor x : Int) : ℚ) := by
  have h := Int.toNat_of_nonneg (Int.floor_nonneg.mpr hx)
  exact_mod_cast congrArg (fun z : Int => (z : ℚ)) h

/-- Subtracting the extracted whole steps always leaves the accumulator
below the overflow sentinel. -/
theorem sub_floor_toNat_lt_sentinel (x : ℚ) :
    x - (((Int.floor x).toNat : Nat) : ℚ) < 1000000 := by
  rcases le_or_lt 0 x with hx | hx
  · rw [cast_toNat_floor x hx, Int.self_sub_floor]
    have h1 := Int.fract_lt_one x
    linarith
  · have h0 : (0 : ℚ) ≤ (((Int.floor x).toNat : Nat) : ℚ) := by positivity
    linarith

/-- C10: an advance call never moves the playback index out of range: for
any store size n at least 1, any direction, either ping-pong setting and
any number of whole-frame steps extracted in the call, play_index < n is
preserved by tick_playback. -/
theorem C10_cursor_bounds (n : Nat) (pp : Bool) (dur speed seconds : ℚ) (s : TickState)
    (hn : 0 < n) (hc : s.cursor.play_index < n) :
    (tick_playback n dur speed seconds pp s).cursor.play_index < n := by
  unfold tick_playback
  dsimp only
  repeat' split
  all_goals first
    | exact hc
    | exact iterate_index_lt n pp _ s.cursor hn hc

/-- C10 witness: a call taking 2 steps in a 4-frame ping-pong store. -/
theorem C10_cursor_bounds_witness :
    (tick_playback 4 10 1 5 true ⟨⟨3, -1, 0⟩, 0⟩).cursor.play_index < 4 :=
  C10_cursor_bounds 4 true 10 1 5 ⟨⟨3, -1, 0⟩, 0⟩ (by decide) (by decide)

/-- C8: the two overflow guards of the advance: when the post-addition
accumulator exceeds the 1e6 sentinel it is reset to 0 before any step is
extracted (the call then moves nothing); after every advance the
accumulator is strictly below the sentinel; and the loop counter, once at
most 1000000, stays at most 1000000 after any advance. -/
theorem C8_overflow_guards (n : Nat) (pp : Bool) (dur speed seconds : ℚ) (s : TickState)
    (ht : s.cursor.total_loops ≤ 1000000) :
    (s.frame_accum + seconds * (((n : ℚ) / dur) * speed) > 1000000 →
      tick_playback n dur speed seconds pp s = { cursor := s.cursor, frame_accum := 0 }) ∧
    (tick_playback n dur speed seconds pp s).frame_accum < 1000000 ∧
    (tick_playback n dur speed seconds pp s).cursor.total_loops ≤ 1000000 := by
  refine ⟨?_, ?_, ?_⟩
  · intro hbig
    unfold tick_playback
    dsimp only
    rw [if_pos hbig]
    norm_num
  · unfold tick_playback
    dsimp only
    repeat' split
    all_goals exact sub_floor_toNat_lt_sentinel _
  · unfold tick_playback
    dsimp only
    repeat' split
    all_goals first
      | exact ht
      | exact iterate_loops_le n pp _ s.cursor ht

/-- C8 witness: an ordinary advance with loop counter 5. -/
theorem C8_overflow_guards_witness :
    (tick_playback 4 10 1 3 true ⟨⟨2, 1, 5⟩, 1/2⟩).frame_accum < 1000000 ∧
    (tick_playback 4 10 1 3 true ⟨⟨2, 1, 5⟩, 1/2⟩).cursor.total_loops ≤ 1000000 := by
  have h := C8_overflow_guards 4 true 10 1 3 ⟨⟨2, 1, 5⟩, 1/2⟩ (by decide)
  exact ⟨h.2.1, h.2.2⟩

/-- C6 (amended): during playback, an advance adds elapsed * rate to the
accumulator, where rate = (store size / duration) * speed, extracts
steps = floor(accumulator), applies exactly that many single steps, and
retains the fractional remainder in [0,1) for the next call — provided the
post-addition accumulator does not exceed the 1e6 overflow sentinel (when
it does, the guard modelled in C8 resets it to 0 and the fractional
progress of that call is discarded). -/
theorem C6_accumulator (n : Nat) (pp : Bool) (dur speed seconds : ℚ) (s : TickState)
    (hn : 2 ≤ n)
    (h0 : 0 ≤ s.frame_accum + seconds * (((n : ℚ) / dur) * speed))
    (hg : s.frame_accum + seconds * (((n : ℚ) / dur) * speed) ≤ 1000000) :
    tick_playback n dur speed seconds pp s =
      { cursor := (advance_step n pp)^[(Int.floor
            (s.frame_accum + seconds * (((n : ℚ) / dur) * speed))).toNat] s.cursor,
        frame_accum := Int.fract (s.frame_accum + seconds * (((n : ℚ) / dur) * speed)) } ∧
    0 ≤ Int.fract (s.frame_accum + seconds * (((n : ℚ) / dur) * speed)) ∧
    Int.fract (s.frame_accum + seconds * (((n : ℚ) / dur) * speed)) < 1 := by
  refine ⟨?_, Int.fract_nonneg _, Int.fract_lt_one _⟩
  unfold tick_playback
  dsimp only
  set A := s.frame_accum + seconds * (((n : ℚ) / dur) * speed) with hA
  rw [if_neg (not_lt.mpr hg)]
  have hacc : A - (((Int.floor A).toNat : Nat) : ℚ) = Int.fract A := by
    rw [cast_toNat_floor _ h0, Int.self_sub_floor]
  by_cases hz : (Int.floor A).toNat = 0
  · rw [if_pos hz]
    have hf : Int.floor A = 0 := by
      have hnn := Int.floor_nonneg.mpr h0
      omega
    have hfr : Int.fract A = A := by
      rw [← Int.self_sub_floor, hf]
      simp
    rw [hz, hfr]
    simp only [Function.iterate_zero_apply, Nat.cast_zero, sub_zero]
  · rw [if_neg hz, if_neg (by omega : ¬ n < 2), hacc]

/-- C6 fails as stated (the "no fractional progress is ever discarded"
part): with a 10-frame store, duration 10 s, speed 1 and an elapsed time of
1000000.5 s, the post-addition accumulator 1000000.5 exceeds the sentinel,
is reset to 0, and the call takes 0 steps — the cursor does not move and
the retained accumulator is 0, not the fractional remainder 1/2 the claim
prescribes. -/
theorem C6_counterexample :
    tick_playback 10 10 1 ((2000001 : ℚ) / 2) true ⟨⟨9, -1, 0⟩, 0⟩ = ⟨⟨9, -1, 0⟩, 0⟩ ∧
    Int.fract ((0 : ℚ) + ((2000001 : ℚ) / 2) * (((10 : ℚ) / 10) * 1)) = 1 / 2 ∧
    (1 : ℚ) / 2 ≠ 0 := by decide

/-- C6 witness: 5 s at rate (4/10)*1 yields 2 whole steps, remainder 0. -/
theorem C6_accumulator_witness :
    tick_playback 4 10 1 5 true ⟨⟨3, -1, 0⟩, 0⟩ = ⟨⟨1, -1, 0⟩, 0⟩ := by
  have h := C6_accumulator 4 true 10 1 5 ⟨⟨3, -1, 0⟩, 0⟩ (by decide) (by norm_num) (by norm_num)
  rw [h.1]
  decide

/-! ## Buffer sizing (C4) -/

/-- C4 (amended): the BufferSizer computes the duration-based budget
round((fps / stride) * clamped duration) floored to a minimum of 2; when
the dimensions are known, the memory guard compares the megabyte-truncated
estimate against the ceiling in whole MB and, when it triggers, recomputes
the budget as max(2, floor(ceiling bytes / bytes per frame)); the
recomputed budget never exceeds the memory ceiling provided the ceiling
admits at least two frames — when even two frames exceed the ceiling, the
minimum of 2 is kept and the ceiling can be exceeded (see the
counterexample). -/
theorem C4_memory_guard (fps : ℚ) (stride : Nat) (dur : Int) (w h ceil_mb : Nat)
    (hw : 0 < w) (hh : 0 < h) :
    (estimate_memory_usage w h (base_max_frames fps stride dur) ≤ ceil_mb →
      recalc_max_frames fps stride dur w h ceil_mb = base_max_frames fps stride dur) ∧
    (ceil_mb < estimate_memory_usage w h (base_max_frames fps stride dur) →
      recalc_max_frames fps stride dur w h ceil_mb
          = max 2 ((ceil_mb * 1024 * 1024) / bytes_per_frame w h) ∧
      (2 ≤ (ceil_mb * 1024 * 1024) / bytes_per_frame w h →
        recalc_max_frames fps stride dur w h ceil_mb * bytes_per_frame w h
          ≤ ceil_mb * 1024 * 1024)) := by
  constructor
  · intro hle
    unfold recalc_max_frames
    dsimp only
    rw [if_pos ⟨hw, hh⟩, if_neg (not_lt.mpr hle)]
  · intro hgt
    have hform : recalc_max_frames fps stride dur w h ceil_mb
        = max 2 ((ceil_mb * 1024 * 1024) / bytes_per_frame w h) := by
      unfold recalc_max_frames
      dsimp only
      rw [if_pos ⟨hw, hh⟩, if_pos hgt]
      split
      · omega
      · omega
    refine ⟨hform, fun h2 => ?_⟩
    rw [hform, Nat.max_eq_right h2]
    exact Nat.div_mul_le_self _ _

/-- C4 fails as stated: with host fps 60, stride 2, duration 30 s, a
32768x16384 source and the 4096 MB default ceiling, the guard triggers,
floor(ceiling bytes / bytes per frame) = 1 is re-floored to the minimum of
2, and the resulting budget of 2 frames exceeds the configured memory
ceiling. -/
theorem C4_counterexample :
    recalc_max_frames 60 2 30 32768 16384 4096 = 2 ∧
    4096 * 1024 * 1024 < 2 * bytes_per_frame 32768 16384 := by decide

/-- C4 witness: a 1920x1080 source under the 4096 MB ceiling, where the
guard triggers and the recomputed budget of 517 frames fits the ceiling. -/
theorem C4_memory_guard_witness :
    recalc_max_frames 60 2 30 1920 1080 4096
        = max 2 ((4096 * 1024 * 1024) / bytes_per_frame 1920 1080) ∧
    recalc_max_frames 60 2 30 1920 1080 4096 * bytes_per_frame 1920 1080
        ≤ 4096 * 1024 * 1024 := by
  have h := (C4_memory_guard 60 2 30 1920 1080 4096 (by decide) (by decide)).2 (by decide)
  exact ⟨h.1, h.2 (by decide)⟩

/-! ## Toggle (C5, C9) -/

/-- C5 (amended): toggling to playback on an empty store is refused — the
mode stays Capturing (loop disabled) and the cursor state is untouched —
but the callback still returns true; the refusal is signalled only by a
log warning, not by the returned value. Toggling on a non-empty store
enables playback, also returning true. -/
theorem C5_toggle_refusal (s : LFState) (hcap : s.loop_enabled = false) :
    (s.frames_len = 0 → toggle_loop s = (s, true)) ∧
    (0 < s.frames_len →
      (toggle_loop s).1.loop_enabled = true ∧ (toggle_loop s).2 = true) := by
  rcases s with ⟨le, fl, pi, d, fa, tl⟩
  dsimp only at hcap
  subst hcap
  constructor
  · intro h0
    dsimp only at h0
    subst h0
    rfl
  · intro hpos
    dsimp only at hpos
    unfold toggle_loop
    dsimp only
    rw [if_pos (show (!false) = true from rfl), if_pos (show fl > 0 from hpos)]
    exact ⟨rfl, rfl⟩

/-- C5 fails as stated: toggling to playback on an empty store leaves the
state unchanged but returns true, not the failure value false the claim
prescribes. -/
theorem C5_counterexample :
    toggle_loop ⟨false, 0, 0, 1, 0, 0⟩ = (⟨false, 0, 0, 1, 0, 0⟩, true) ∧
    (toggle_loop ⟨false, 0, 0, 1, 0, 0⟩).2 ≠ false := by decide

/-- C5 witness: a refused empty toggle and an accepted non-empty toggle. -/
theorem C5_toggle_refusal_witness :
    toggle_loop ⟨false, 0, 2, 1, 0, 7⟩ = (⟨false, 0, 2, 1, 0, 7⟩, true) ∧
    (toggle_loop ⟨false, 3, 2, 1, 0, 7⟩).1.loop_enabled = true := by
  have h1 := C5_toggle_refusal ⟨false, 0, 2, 1, 0, 7⟩ rfl
  have h2 := C5_toggle_refusal ⟨false, 3, 2, 1, 0, 7⟩ rfl
  exact ⟨h1.1 rfl, (h2.2 (by decide)).1⟩

/-- C9: enabling playback from a non-empty store of n frames resets the
cursor to index n-1, direction Backward, accumulator 0 and loop counter 0,
regardless of the cursor's previous state, and the callback returns
true. -/
theorem C9_playback_reset (s : LFState) (hcap : s.loop_enabled = false)
    (hpos : 0 < s.frames_len) :
    (toggle_loop s).1 =
      { loop_enabled := true, frames_len := s.frames_len,
        play_index := s.frames_len - 1, direction := -1,
        frame_accum := 0, total_loops := 0 } ∧
    (toggle_loop s).2 = true := by
  rcases s with ⟨le, fl, pi, d, fa, tl⟩
  dsimp only at hcap hpos ⊢
  subst hcap
  unfold toggle_loop
  dsimp only
  rw [if_pos (show (!false) = true from rfl), if_pos (show fl > 0 from hpos)]
  exact ⟨rfl, rfl⟩

/-- C9 witness: a 5-frame store with an arbitrary stale cursor. -/
theorem C9_playback_reset_witness :
    (toggle_loop ⟨false, 5, 2, 1, 3/2, 9⟩).1 = ⟨true, 5, 4, -1, 0, 0⟩ := by
  have h := C9_playback_reset ⟨false, 5, 2, 1, 3/2, 9⟩ rfl (by decide)
  rw [h.1]
  rfl

end PingPongLoop
